import Mathlib

/-!
Verification of the weather-chart geometry and annotation engine.

The definitions below are a shallow embedding of the chart core found in
`src/unnamed/part_000` (the `Chart` component module) and
`src/src/pages/location/[coordinates].tsx` (an older page with its own copies
of the same helpers).  JavaScript numbers used for sample values and pixel
coordinates are modelled by `ℚ`; epoch-millisecond timestamps by `Int`;
JavaScript array indexing (which yields `undefined` out of range) by
`Option`-valued lookup.
-/

namespace Weather

/-- A sample: epoch-millisecond time, physical value (Celsius), and its
0-based position `i` within its owning series (field names from the source's
`Point` type). -/
structure Point where
  time : Int
  value : ℚ
  i : Nat
deriving DecidableEq, Repr

/-- A labelled series of samples (source type `TimeSeries`). -/
structure TimeSeries where
  label : String
  points : List Point
deriving DecidableEq, Repr

/-- JavaScript array indexing `l[k]` for a possibly negative index `k`:
`undefined` (here `none`) when out of range. -/
def jsIdx (l : List Point) (k : Int) : Option Point :=
  if k < 0 then none else l[k.toNat]?

/-- Abstraction of the `Temporal` library's `America/New_York` calendar as
used by `getDayBoundaries`: `startOfDay t` is the epoch-ms instant of the
start of the calendar day containing `t`, and `addDay t` is `t` plus one
calendar day (`.add("P1D")`).  The fields below are the guarantees of the
library for the US Eastern zone (calendar days are nonempty, half-open,
and partition the timeline). -/
structure Calendar where
  startOfDay : Int → Int
  addDay : Int → Int
  startOfDay_le : ∀ t, startOfDay t ≤ t
  lt_addDay : ∀ t, t < addDay t
  startOfDay_idem : ∀ t, startOfDay (startOfDay t) = startOfDay t
  addDay_isStart : ∀ t, startOfDay t = t → startOfDay (addDay t) = addDay t
  startOfDay_eq_of_mem : ∀ d t, startOfDay d = d → d ≤ t → t < addDay d → startOfDay t = d
  lt_addDay_startOfDay : ∀ t, t < addDay (startOfDay t)

/-- The `while` loop of `getDayBoundaries`: starting from boundary `cur`,
emit `[cur, cur + 1 day)` and advance by one calendar day while
`endTime - cur > 0`. -/
def boundariesFrom (cal : Calendar) (e : Int) (cur : Int) : List (Int × Int) :=
  if 0 < e - cur then
    (cur, cal.addDay cur) :: boundariesFrom cal e (cal.addDay cur)
  else
    []
termination_by (e - cur).toNat
decreasing_by
  have := cal.lt_addDay cur
  omega

/-- `getDayBoundaries` from the source (identical in both files): convert
`startTime` to the zoned start of day and loop until reaching `endTime`. -/
def getDayBoundaries (cal : Calendar) (startTime endTime : Int) : List (Int × Int) :=
  boundariesFrom cal endTime (cal.startOfDay startTime)

/-- Fixed-offset US Eastern Standard Time model: local time is UTC−5h, days
are 86400000 ms.  (Instants used in concrete statements below are chosen in
winter, where the real `America/New_York` zone agrees with this offset.) -/
def estStartOfDay (t : Int) : Int :=
  t - (t - 18000000) % 86400000

/-- One calendar day after `t` in the fixed-offset Eastern model. -/
def estAddDay (t : Int) : Int :=
  t + 86400000

/-- The fixed-offset Eastern calendar as a `Calendar`. -/
def estCal : Calendar where
  startOfDay := estStartOfDay
  addDay := estAddDay
  startOfDay_le := by
    intro t
    unfold estStartOfDay
    omega
  lt_addDay := by
    intro t
    unfold estAddDay
    omega
  startOfDay_idem := by
    intro t
    unfold estStartOfDay
    omega
  addDay_isStart := by
    intro t h
    unfold estStartOfDay estAddDay at *
    omega
  startOfDay_eq_of_mem := by
    intro d t hd hle hlt
    unfold estStartOfDay estAddDay at *
    omega
  lt_addDay_startOfDay := by
    intro t
    unfold estStartOfDay estAddDay
    omega

lemma boundariesFrom_eq_nil (cal : Calendar) (e cur : Int) (h : e ≤ cur) :
    boundariesFrom cal e cur = [] := by
  rw [boundariesFrom]
  simp only [ite_eq_right_iff]
  intro h'
  omega

lemma boundariesFrom_eq_cons (cal : Calendar) (e cur : Int) (h : cur < e) :
    boundariesFrom cal e cur =
      (cur, cal.addDay cur) :: boundariesFrom cal e (cal.addDay cur) := by
  rw [boundariesFrom]
  simp only [if_pos (by omega : (0:Int) < e - cur)]

/-- Every emitted boundary is one calendar day wide, starts at a day start,
and lies between the initial boundary and `e`. -/
lemma boundariesFrom_mem (cal : Calendar) (e : Int) :
    ∀ (n : Nat) (cur : Int), (e - cur).toNat ≤ n → cal.startOfDay cur = cur →
      ∀ pr ∈ boundariesFrom cal e cur,
        pr.2 = cal.addDay pr.1 ∧ cal.startOfDay pr.1 = pr.1 ∧ cur ≤ pr.1 ∧ pr.1 < e := by
  intro n
  induction n with
  | zero =>
    intro cur hn hc pr hpr
    rw [boundariesFrom_eq_nil cal e cur (by omega)] at hpr
    exact absurd hpr (List.not_mem_nil pr)
  | succ n ih =>
    intro cur hn hc pr hpr
    by_cases hlt : cur < e
    · rw [boundariesFrom_eq_cons cal e cur hlt] at hpr
      rcases List.mem_cons.mp hpr with h | h
      · subst h
        exact ⟨rfl, hc, le_refl _, hlt⟩
      · have hadv := cal.lt_addDay cur
        have hrec := ih (cal.addDay cur) (by omega) (cal.addDay_isStart cur hc) pr h
        exact ⟨hrec.1, hrec.2.1, by omega, hrec.2.2.2⟩
    · rw [boundariesFrom_eq_nil cal e cur (by omega)] at hpr
      exact absurd hpr (List.not_mem_nil pr)

/-- Consecutive boundaries are contiguous and strictly advancing. -/
lemma boundariesFrom_chain (cal : Calendar) (e : Int) :
    ∀ (n : Nat) (cur : Int), (e - cur).toNat ≤ n →
      List.Chain' (fun a b => a.2 = b.1 ∧ b.1 = cal.addDay a.1 ∧ a.1 < b.1)
        (boundariesFrom cal e cur) := by
  intro n
  induction n with
  | zero =>
    intro cur hn
    rw [boundariesFrom_eq_nil cal e cur (by omega)]
    exact List.chain'_nil
  | succ n ih =>
    intro cur hn
    by_cases hlt : cur < e
    · rw [boundariesFrom_eq_cons cal e cur hlt]
      have hadv := cal.lt_addDay cur
      refine List.Chain'.cons' (ih (cal.addDay cur) (by omega)) ?_
      intro b hb
      by_cases hlt' : cal.addDay cur < e
      · rw [boundariesFrom_eq_cons cal e _ hlt'] at hb
        simp only [List.head?_cons, Option.mem_def, Option.some.injEq] at hb
        subst hb
        exact ⟨rfl, rfl, hadv⟩
      · rw [boundariesFrom_eq_nil cal e _ (by omega)] at hb
        simp at hb
    · rw [boundariesFrom_eq_nil cal e cur (by omega)]
      exact List.chain'_nil

/-- The boundaries are pairwise non-overlapping (each ends before the next
begins). -/
lemma boundariesFrom_pairwise (cal : Calendar) (e : Int) :
    ∀ (n : Nat) (cur : Int), (e - cur).toNat ≤ n → cal.startOfDay cur = cur →
      List.Pairwise (fun a b => a.2 ≤ b.1) (boundariesFrom cal e cur) := by
  intro n
  induction n with
  | zero =>
    intro cur hn _
    rw [boundariesFrom_eq_nil cal e cur (by omega)]
    exact List.Pairwise.nil
  | succ n ih =>
    intro cur hn hc
    by_cases hlt : cur < e
    · rw [boundariesFrom_eq_cons cal e cur hlt]
      have hadv := cal.lt_addDay cur
      refine List.Pairwise.cons ?_ (ih (cal.addDay cur) (by omega) (cal.addDay_isStart cur hc))
      intro b hb
      have := boundariesFrom_mem cal e ((e - cal.addDay cur).toNat) (cal.addDay cur)
        (le_refl _) (cal.addDay_isStart cur hc) b hb
      exact this.2.2.1
    · rw [boundariesFrom_eq_nil cal e cur (by omega)]
      exact List.Pairwise.nil

/-- The end of the interval the boundaries cover: `endTime` itself when it is
a day start, otherwise the start of `endTime`'s day plus one calendar day. -/
def coverEnd (cal : Calendar) (e : Int) : Int :=
  if cal.startOfDay e = e then e else cal.addDay (cal.startOfDay e)

/-- The union of the emitted intervals is exactly
`[cur, coverEnd e)` (or empty when `e ≤ cur`). -/
lemma boundariesFrom_union (cal : Calendar) (e : Int) :
    ∀ (n : Nat) (cur : Int), (e - cur).toNat ≤ n → cal.startOfDay cur = cur →
      ∀ t, (∃ pr ∈ boundariesFrom cal e cur, pr.1 ≤ t ∧ t < pr.2) ↔
        (cur ≤ t ∧ t < if cur < e then coverEnd cal e else cur) := by
  intro n
  induction n with
  | zero =>
    intro cur hn _ t
    rw [boundariesFrom_eq_nil cal e cur (by omega), if_neg (by omega : ¬ cur < e)]
    simp only [List.not_mem_nil, false_and, exists_false, exists_prop, false_iff]
    omega
  | succ n ih =>
    intro cur hn hc t
    by_cases hlt : cur < e
    · rw [boundariesFrom_eq_cons cal e cur hlt, if_pos hlt]
      have hadv := cal.lt_addDay cur
      have hc' := cal.addDay_isStart cur hc
      have ihc := ih (cal.addDay cur) (by omega) hc' t
      constructor
      · rintro ⟨pr, hpr, hmem⟩
        rcases List.mem_cons.mp hpr with h | h
        · subst h
          simp only at hmem
          -- t is inside the first day [cur, addDay cur)
          refine ⟨hmem.1, ?_⟩
          by_cases hlt' : cal.addDay cur < e
          · -- coverEnd e is at least addDay cur since addDay cur < e ≤ coverEnd e
            have hec : e ≤ coverEnd cal e := by
              unfold coverEnd
              split
              · omega
              · have := cal.lt_addDay_startOfDay e
                omega
            omega
          · -- the loop stops after this day: coverEnd e = addDay cur
            have : coverEnd cal e = cal.addDay cur := by
              unfold coverEnd
              by_cases he : cal.startOfDay e = e
              · -- e is a day start and cur < e ≤ addDay cur forces e = addDay cur
                rw [if_pos he]
                rcases lt_or_eq_of_le (by omega : e ≤ cal.addDay cur) with h' | h'
                · have := cal.startOfDay_eq_of_mem cur e hc (by omega) h'
                  omega
                · omega
              · rw [if_neg he]
                have hsd : cal.startOfDay e = cur := by
                  rcases lt_or_eq_of_le (by omega : e ≤ cal.addDay cur) with h' | h'
                  · exact cal.startOfDay_eq_of_mem cur e hc (by omega) h'
                  · exact absurd (by rw [h']; exact hc') he
                rw [hsd]
            omega
        · have := ihc.mp ⟨pr, h, hmem⟩
          rw [if_pos] at this
          · refine ⟨by omega, this.2⟩
          · by_cases hlt' : cal.addDay cur < e
            · exact hlt'
            · exfalso
              rw [if_neg hlt'] at *
              omega
      · rintro ⟨h1, h2⟩
        by_cases hin : t < cal.addDay cur
        · exact ⟨(cur, cal.addDay cur), List.mem_cons_self _ _, h1, hin⟩
        · -- t lies in a later day; coverEnd forces addDay cur < e
          have hlt' : cal.addDay cur < e := by
            by_contra hge
            have : coverEnd cal e = cal.addDay cur := by
              unfold coverEnd
              by_cases he : cal.startOfDay e = e
              · rw [if_pos he]
                rcases lt_or_eq_of_le (by omega : e ≤ cal.addDay cur) with h' | h'
                · have := cal.startOfDay_eq_of_mem cur e hc (by omega) h'
                  omega
                · omega
              · rw [if_neg he]
                have hsd : cal.startOfDay e = cur := by
                  rcases lt_or_eq_of_le (by omega : e ≤ cal.addDay cur) with h' | h'
                  · exact cal.startOfDay_eq_of_mem cur e hc (by omega) h'
                  · exact absurd (by rw [h']; exact cal.addDay_isStart cur hc) he
                rw [hsd]
            omega
          obtain ⟨pr, hpr, hmem⟩ := ihc.mpr (by rw [if_pos hlt']; omega)
          exact ⟨pr, List.mem_cons_of_mem _ hpr, hmem⟩
    · rw [boundariesFrom_eq_nil cal e cur (by omega), if_neg hlt]
      constructor
      · rintro ⟨_, h, _⟩
        exact absurd h (List.not_mem_nil _)
      · rintro ⟨h1, h2⟩
        omega

/-- Length of the emitted list is bounded by the ms width of the interval. -/
lemma boundariesFrom_length (cal : Calendar) (e : Int) :
    ∀ (n : Nat) (cur : Int), (e - cur).toNat ≤ n →
      (boundariesFrom cal e cur).length ≤ (e - cur).toNat := by
  intro n
  induction n with
  | zero =>
    intro cur hn
    rw [boundariesFrom_eq_nil cal e cur (by omega)]
    simp
  | succ n ih =>
    intro cur hn
    by_cases hlt : cur < e
    · rw [boundariesFrom_eq_cons cal e cur hlt]
      have hadv := cal.lt_addDay cur
      have := ih (cal.addDay cur) (by omega)
      simp only [List.length_cons]
      omega
    · rw [boundariesFrom_eq_nil cal e cur (by omega)]
      simp

/-- Claim C1, as stated, is false: when `endTime` falls exactly on a day
start, the segmenter's union ends at `endTime` itself, not at
`startOfDay endTime + 1 day`.  Concretely (fixed-offset Eastern model, both
instants at local midnight in winter, where `America/New_York` is UTC−5):
`startTime` = 1970-01-01T00:00 EST and `endTime` = 1970-01-02T00:00 EST; the
instant `endTime` lies in the claimed union but in no returned boundary. -/
theorem claim1_counterexample :
    ¬ ((∃ pr ∈ getDayBoundaries estCal 18000000 104400000,
          pr.1 ≤ 104400000 ∧ (104400000 : Int) < pr.2) ↔
       (estCal.startOfDay 18000000 ≤ 104400000 ∧
        (104400000 : Int) < estCal.addDay (estCal.startOfDay 104400000))) := by
  intro hiff
  have h1 : estCal.startOfDay (18000000 : Int) = 18000000 := by decide
  have h2 : estCal.startOfDay (104400000 : Int) = 104400000 := by decide
  have hmem : ∃ pr ∈ getDayBoundaries estCal 18000000 104400000,
      pr.1 ≤ 104400000 ∧ (104400000 : Int) < pr.2 := by
    apply hiff.mpr
    refine ⟨by decide, ?_⟩
    rw [h2]
    decide
  have hu := boundariesFrom_union estCal 104400000
      (((104400000 : Int) - 18000000).toNat) 18000000 (le_refl _) h1 104400000
  unfold getDayBoundaries at hmem
  rw [h1] at hmem
  have hres := hu.mp hmem
  rw [if_pos (by omega)] at hres
  unfold coverEnd at hres
  rw [if_pos h2] at hres
  omega

/-- Claim C1 (amended): for `startTime < endTime`, the day segmenter returns
a nonempty sequence of half-open intervals that are contiguous (each
interval's end equals the next interval's start), non-overlapping, each
exactly one calendar day starting at a day start, beginning at
`startOfDay startTime`, and whose union is exactly
`[startOfDay startTime, E)` where `E` is `endTime` itself when `endTime` is
a day start and `startOfDay endTime + 1 day` otherwise. -/
theorem claim1_amended (cal : Calendar) (s e : Int) (h : s < e) :
    getDayBoundaries cal s e ≠ [] ∧
    (getDayBoundaries cal s e).head? =
      some (cal.startOfDay s, cal.addDay (cal.startOfDay s)) ∧
    List.Chain' (fun a b => a.2 = b.1) (getDayBoundaries cal s e) ∧
    (∀ pr ∈ getDayBoundaries cal s e,
      pr.2 = cal.addDay pr.1 ∧ cal.startOfDay pr.1 = pr.1) ∧
    List.Pairwise (fun a b => a.2 ≤ b.1) (getDayBoundaries cal s e) ∧
    (∀ t, (∃ pr ∈ getDayBoundaries cal s e, pr.1 ≤ t ∧ t < pr.2) ↔
      (cal.startOfDay s ≤ t ∧ t < coverEnd cal e)) := by
  have hle := cal.startOfDay_le s
  have hlt : cal.startOfDay s < e := by omega
  have hc := cal.startOfDay_idem s
  unfold getDayBoundaries
  refine ⟨?_, ?_, ?_, ?_, ?_, ?_⟩
  · rw [boundariesFrom_eq_cons cal e _ hlt]
    simp
  · rw [boundariesFrom_eq_cons cal e _ hlt]
    rfl
  · exact (boundariesFrom_chain cal e ((e - cal.startOfDay s).toNat) _
      (le_refl _)).imp (fun _ _ h => h.1)
  · intro pr hpr
    have := boundariesFrom_mem cal e ((e - cal.startOfDay s).toNat) _
      (le_refl _) hc pr hpr
    exact ⟨this.1, this.2.1⟩
  · exact boundariesFrom_pairwise cal e ((e - cal.startOfDay s).toNat) _ (le_refl _) hc
  · intro t
    have hu := boundariesFrom_union cal e ((e - cal.startOfDay s).toNat) _
      (le_refl _) hc t
    rw [if_pos hlt] at hu
    exact hu

/-- Claim C1 witness: a concrete instantiation of the amended theorem. -/
theorem claim1_witness :
    getDayBoundaries estCal 20000000 30000000 ≠ [] ∧
    (∀ pr ∈ getDayBoundaries estCal 20000000 30000000,
      pr.2 = estCal.addDay pr.1 ∧ estCal.startOfDay pr.1 = pr.1) := by
  have h := claim1_amended estCal 20000000 30000000 (by decide)
  exact ⟨h.1, h.2.2.2.1⟩

/-- Claim C9: the boundary-emitting loop terminates for every input (its
number of iterations is bounded by the millisecond width of the interval and
each step strictly advances the boundary by one calendar day), and when
`endTime ≤ startOfDay startTime` the loop body never runs and the empty
sequence is returned. -/
theorem claim9 (cal : Calendar) (s e : Int) :
    (e ≤ cal.startOfDay s → getDayBoundaries cal s e = []) ∧
    (getDayBoundaries cal s e).length ≤ (e - cal.startOfDay s).toNat ∧
    List.Chain' (fun a b => b.1 = cal.addDay a.1 ∧ a.1 < b.1)
      (getDayBoundaries cal s e) := by
  refine ⟨fun h => boundariesFrom_eq_nil cal e _ h,
    boundariesFrom_length cal e ((e - cal.startOfDay s).toNat) _ (le_refl _), ?_⟩
  exact (boundariesFrom_chain cal e ((e - cal.startOfDay s).toNat) _
    (le_refl _)).imp (fun _ _ h => ⟨h.2.1, h.2.2⟩)

/-- Claim C9 witness: a zero-length interval (`endTime` before
`startOfDay startTime`) yields the empty sequence. -/
theorem claim9_witness : getDayBoundaries estCal 100000000 10000000 = [] := by
  apply (claim9 estCal 100000000 10000000).1
  decide

namespace CoordinatesPage

/-- Scan loop of d3's `minIndex`: `m`/`bi` are the least value seen so far
and its index, `idx` the index of the next element (update on strict
decrease, so ties keep the earlier index). -/
def d3minIndexGo (f : Point → ℚ) : List Point → Nat → ℚ → Nat → Nat
  | [], _, _, bi => bi
  | p :: rest, idx, m, bi =>
    if f p < m then d3minIndexGo f rest (idx + 1) (f p) idx
    else d3minIndexGo f rest (idx + 1) m bi

/-- d3's `minIndex`: index of the first least element, `-1` on an empty
array. -/
def d3minIndex (f : Point → ℚ) (ps : List Point) : Int :=
  match ps with
  | [] => -1
  | p :: rest => (d3minIndexGo f rest 1 (f p) 0 : Int)

/-- Scan loop of d3's `maxIndex` (update on strict increase). -/
def d3maxIndexGo (f : Point → ℚ) : List Point → Nat → ℚ → Nat → Nat
  | [], _, _, bi => bi
  | p :: rest, idx, m, bi =>
    if m < f p then d3maxIndexGo f rest (idx + 1) (f p) idx
    else d3maxIndexGo f rest (idx + 1) m bi

/-- d3's `maxIndex`: index of the first greatest element, `-1` on an empty
array. -/
def d3maxIndex (f : Point → ℚ) (ps : List Point) : Int :=
  match ps with
  | [] => -1
  | p :: rest => (d3maxIndexGo f rest 1 (f p) 0 : Int)

/-- The bucket membership test `p.time >= boundaryStart && p.time < boundaryEnd`. -/
def inBucket (s e : Int) (p : Point) : Bool :=
  s ≤ p.time && p.time < e

/-- One iteration of `getExtremePoints`'s `map` in `[coordinates].tsx`:
`[pointsInBoundary[minIndex(...)], pointsInBoundary[maxIndex(...)]]`.
On an empty bucket both indices are `-1` and the JS lookups yield
`undefined` (`none`). -/
def bucketExtremes (s e : Int) (points : List Point) : List (Option Point) :=
  let pts := points.filter (inBucket s e)
  [jsIdx pts (d3minIndex Point.value pts), jsIdx pts (d3maxIndex Point.value pts)]

/-- `getExtremePoints` from `[coordinates].tsx` (per-day-bucket policy):
map each day boundary to its min/max pair and flatten, in bucket order. -/
def getExtremePoints (dayBoundaries : List (Int × Int)) (points : List Point) :
    List (Option Point) :=
  (dayBoundaries.map (fun b => bucketExtremes b.1 b.2 points)).flatten

lemma jsIdx_mem {l : List Point} {k : Int} {c : Point} (h : jsIdx l k = some c) :
    c ∈ l := by
  unfold jsIdx at h
  split at h
  · exact absurd h (by simp)
  · exact List.getElem?_mem h

/-- The scan returns the position of an element no larger than the running
minimum and than everything still to be scanned. -/
lemma d3minIndexGo_spec (f : Point → ℚ) (ps : List Point) :
    ∀ (rest : List Point) (idx : Nat) (m : ℚ) (bi : Nat) (b : Point),
      rest = ps.drop idx → ps[bi]? = some b → f b = m →
      ∃ c, ps[d3minIndexGo f rest idx m bi]? = some c ∧ f c ≤ m ∧
        ∀ q ∈ rest, f c ≤ f q := by
  intro rest
  induction rest with
  | nil =>
    intro idx m bi b _ hb hm
    exact ⟨b, by simpa [d3minIndexGo] using hb, le_of_eq hm, by simp⟩
  | cons p rest ih =>
    intro idx m bi b hdrop hb hm
    have hrest : ps.drop (idx + 1) = rest := by
      rw [← List.drop_drop, ← hdrop]
      rfl
    have hp : ps[idx]? = some p := by
      have := List.getElem?_drop ps idx 0
      rw [← hdrop] at this
      simpa using this.symm
    by_cases hfp : f p < m
    · obtain ⟨c, hc, hcle, hall⟩ := ih (idx + 1) (f p) idx p hrest.symm hp rfl
      refine ⟨c, by simpa [d3minIndexGo, if_pos hfp] using hc, le_trans hcle (le_of_lt hfp), ?_⟩
      intro q hq
      rcases List.mem_cons.mp hq with h | h
      · subst h; exact hcle
      · exact hall q h
    · obtain ⟨c, hc, hcle, hall⟩ := ih (idx + 1) m bi b hrest.symm hb hm
      refine ⟨c, by simpa [d3minIndexGo, if_neg hfp] using hc, hcle, ?_⟩
      intro q hq
      rcases List.mem_cons.mp hq with h | h
      · subst h; exact le_trans hcle (not_lt.mp hfp)
      · exact hall q h

/-- The scan returns the position of an element no smaller than the running
maximum and than everything still to be scanned. -/
lemma d3maxIndexGo_spec (f : Point → ℚ) (ps : List Point) :
    ∀ (rest : List Point) (idx : Nat) (m : ℚ) (bi : Nat) (b : Point),
      rest = ps.drop idx → ps[bi]? = some b → f b = m →
      ∃ c, ps[d3maxIndexGo f rest idx m bi]? = some c ∧ m ≤ f c ∧
        ∀ q ∈ rest, f q ≤ f c := by
  intro rest
  induction rest with
  | nil =>
    intro idx m bi b _ hb hm
    exact ⟨b, by simpa [d3maxIndexGo] using hb, ge_of_eq hm, by simp⟩
  | cons p rest ih =>
    intro idx m bi b hdrop hb hm
    have hrest : ps.drop (idx + 1) = rest := by
      rw [← List.drop_drop, ← hdrop]
      rfl
    have hp : ps[idx]? = some p := by
      have := List.getElem?_drop ps idx 0
      rw [← hdrop] at this
      simpa using this.symm
    by_cases hfp : m < f p
    · obtain ⟨c, hc, hcle, hall⟩ := ih (idx + 1) (f p) idx p hrest.symm hp rfl
      refine ⟨c, by simpa [d3maxIndexGo, if_pos hfp] using hc, le_trans (le_of_lt hfp) hcle, ?_⟩
      intro q hq
      rcases List.mem_cons.mp hq with h | h
      · subst h; exact hcle
      · exact hall q h
    · obtain ⟨c, hc, hcle, hall⟩ := ih (idx + 1) m bi b hrest.symm hb hm
      refine ⟨c, by simpa [d3maxIndexGo, if_neg hfp] using hc, hcle, ?_⟩
      intro q hq
      rcases List.mem_cons.mp hq with h | h
      · subst h; exact le_trans (not_lt.mp hfp) hcle
      · exact hall q h

/-- For a nonempty array, `pts[minIndex(pts)]` is a least element. -/
lemma d3minIndex_spec (f : Point → ℚ) (points : List Point) (h : points ≠ []) :
    ∃ c, jsIdx points (d3minIndex f points) = some c ∧ ∀ q ∈ points, f c ≤ f q := by
  match points, h with
  | p :: rest, _ =>
    obtain ⟨c, hc, hle, hall⟩ :=
      d3minIndexGo_spec f (p :: rest) rest 1 (f p) 0 p rfl (by simp) rfl
    refine ⟨c, ?_, ?_⟩
    · unfold d3minIndex jsIdx
      rw [if_neg (by omega : ¬ ((d3minIndexGo f rest 1 (f p) 0 : Nat) : Int) < 0)]
      simpa using hc
    · intro q hq
      rcases List.mem_cons.mp hq with h | h
      · subst h; exact hle
      · exact hall q h

/-- For a nonempty array, `pts[maxIndex(pts)]` is a greatest element. -/
lemma d3maxIndex_spec (f : Point → ℚ) (points : List Point) (h : points ≠ []) :
    ∃ c, jsIdx points (d3maxIndex f points) = some c ∧ ∀ q ∈ points, f q ≤ f c := by
  match points, h with
  | p :: rest, _ =>
    obtain ⟨c, hc, hle, hall⟩ :=
      d3maxIndexGo_spec f (p :: rest) rest 1 (f p) 0 p rfl (by simp) rfl
    refine ⟨c, ?_, ?_⟩
    · unfold d3maxIndex jsIdx
      rw [if_neg (by omega : ¬ ((d3maxIndexGo f rest 1 (f p) 0 : Nat) : Int) < 0)]
      simpa using hc
    · intro q hq
      rcases List.mem_cons.mp hq with h | h
      · subst h; exact hle
      · exact hall q h

/-- A nonempty bucket contributes exactly `[min sample, max sample]`. -/
lemma bucketExtremes_spec (s e : Int) (points : List Point)
    (h : points.filter (inBucket s e) ≠ []) :
    ∃ m M, bucketExtremes s e points = [some m, some M] ∧
      m ∈ points.filter (inBucket s e) ∧
      (∀ q ∈ points.filter (inBucket s e), m.value ≤ q.value) ∧
      M ∈ points.filter (inBucket s e) ∧
      (∀ q ∈ points.filter (inBucket s e), q.value ≤ M.value) := by
  obtain ⟨m, hm, hmall⟩ := d3minIndex_spec Point.value _ h
  obtain ⟨M, hM, hMall⟩ := d3maxIndex_spec Point.value _ h
  refine ⟨m, M, ?_, jsIdx_mem hm, hmall, jsIdx_mem hM, hMall⟩
  simp only [bucketExtremes]
  rw [hm, hM]

end CoordinatesPage

lemma jsIdx_natCast (l : List Point) (k : Nat) : jsIdx l (k : Int) = l[k]? := by
  unfold jsIdx
  rw [if_neg (by omega : ¬ ((k : Nat) : Int) < 0)]
  norm_num

namespace ChartComponent

/-- JS comparison `a < q?.value`: false when the operand is `undefined`. -/
def jsLtValue (a : ℚ) (q : Option Point) : Bool :=
  match q with
  | some q => a < q.value
  | none => false

/-- JS comparison `a > q?.value`: false when the operand is `undefined`. -/
def jsGtValue (a : ℚ) (q : Option Point) : Bool :=
  match q with
  | some q => q.value < a
  | none => false

/-- The first filter's predicate in part_000's `getExtremePoints`: a sample
at position `j` is flagged when it is strictly below both `points[j-1]` and
`points[j+1]`, or strictly above both (comparisons against `undefined`
neighbors are false). -/
def flagCond (points : List Point) (j : Nat) (p : Point) : Bool :=
  (jsLtValue p.value (jsIdx points ((j : Int) - 1)) &&
   jsLtValue p.value (jsIdx points ((j : Int) + 1))) ||
  (jsGtValue p.value (jsIdx points ((j : Int) - 1)) &&
   jsGtValue p.value (jsIdx points ((j : Int) + 1)))

/-- The first filter of part_000's `getExtremePoints` (find inflection
points): JS `Array.filter` passes each element with its index in the
original array. -/
def inflectionFilter (points : List Point) : List Point :=
  (points.enum).filterMap fun jp =>
    if flagCond points jp.1 jp.2 then some jp.2 else none

/-- The second filter of part_000's `getExtremePoints` (filter out points
that are too close): keep `p` at position `j` of the flagged array `ps` iff
`ps[j-1]?.i !== p.i - 1`; note the comparison is against the static flagged
array, not the progressively filtered one. -/
def collapseAdjacent (ps : List Point) : List Point :=
  (ps.enum).filterMap fun jp =>
    if ((jsIdx ps ((jp.1 : Int) - 1)).map fun q => (q.i : Int)) ≠ some ((jp.2.i : Int) - 1)
    then some jp.2 else none

/-- `getExtremePoints` from part_000 (inflection policy): the two filters
composed. -/
def getExtremePoints (points : List Point) : List Point :=
  collapseAdjacent (inflectionFilter points)

/-- Modelled from the spec: keep the first point of any run of flagged
points with consecutive indices; remove all later members of the run.  The
walk keeps an element iff the element right before it in the flagged list
does not carry index exactly one less. -/
def keepRunFirstsGo (prev : Point) : List Point → List Point
  | [] => []
  | q :: rest =>
    if (prev.i : Int) = (q.i : Int) - 1 then keepRunFirstsGo q rest
    else q :: keepRunFirstsGo q rest

/-- Modelled from the spec: the head is always kept, then the walk above. -/
def keepRunFirsts : List Point → List Point
  | [] => []
  | p :: rest => p :: keepRunFirstsGo p rest

lemma collapseAdjacent_go (ps : List Point) :
    ∀ (rest : List Point) (k : Nat) (prev : Point), ps.drop k = prev :: rest →
      (List.enumFrom (k + 1) rest).filterMap (fun jp =>
        if ((jsIdx ps ((jp.1 : Int) - 1)).map fun q => (q.i : Int)) ≠ some ((jp.2.i : Int) - 1)
        then some jp.2 else none) = keepRunFirstsGo prev rest := by
  intro rest
  induction rest with
  | nil =>
    intro k prev _
    rfl
  | cons q rest ih =>
    intro k prev hdrop
    have hdrop' : ps.drop (k + 1) = q :: rest := by
      rw [← List.drop_drop, hdrop]
      rfl
    have hk : ps[k]? = some prev := by
      have := List.getElem?_drop ps k 0
      rw [hdrop] at this
      simpa using this.symm
    have hcast : ((k + 1 : Nat) : Int) - 1 = ((k : Nat) : Int) := by push_cast; ring
    have hTail := ih (k + 1) q hdrop'
    show List.filterMap _ ((k + 1, q) :: List.enumFrom (k + 1 + 1) rest) = _
    rw [List.filterMap_cons]
    simp only [hcast, jsIdx_natCast, hk, Option.map_some]
    by_cases hadj : (prev.i : Int) = (q.i : Int) - 1
    · rw [if_neg (by simp [hadj]), keepRunFirstsGo, if_pos hadj]
      exact hTail
    · rw [if_pos (by simp [hadj]), keepRunFirstsGo, if_neg hadj]
      rw [hTail]

end ChartComponent

/-- The spec's inflection example series: values `[1, 3, 2, 5, 1]` at
indices 0 through 4. -/
def exSeries : List Point :=
  [⟨0, 1, 0⟩, ⟨1, 3, 1⟩, ⟨2, 2, 2⟩, ⟨3, 5, 3⟩, ⟨4, 1, 4⟩]

/-- Claim C3 is false on the code: for values `[1, 3, 2, 5, 1]` the value 2
at index 2 is itself a strict local minimum (2 < 3 and 2 < 5), so the
inflection filter flags indices 1, 2 and 3 — not exactly 1 and 3 — and the
adjacency collapse then leaves only index 1 in the function's output. -/
theorem claim3_counterexample :
    ¬ (((ChartComponent.inflectionFilter exSeries).map Point.i = [1, 3]) ∨
       ((ChartComponent.getExtremePoints exSeries).map Point.i = [1, 3])) := by
  decide

/-- Claim C3 (amended): a sample is flagged by the inflection filter exactly
when its value is strictly less than both its immediate neighbors' values or
strictly greater than both; the first and last samples are never flagged.
For the value sequence `[1, 3, 2, 5, 1]` the filter flags indices 1, 2 and 3
(index 2 is a strict local minimum), and after the adjacent-index collapse
the function returns only the sample at index 1. -/
theorem claim3_amended :
    (∀ (pre : List Point) (pm p pp : Point) (post : List Point),
      ChartComponent.flagCond (pre ++ pm :: p :: pp :: post) (pre.length + 1) p = true ↔
        ((p.value < pm.value ∧ p.value < pp.value) ∨
         (pm.value < p.value ∧ pp.value < p.value))) ∧
    (∀ (points : List Point) (p : Point),
      ChartComponent.flagCond points 0 p = false) ∧
    (∀ (points : List Point) (j : Nat) (p : Point), points.length ≤ j + 1 →
      ChartComponent.flagCond points j p = false) ∧
    (∀ points, ChartComponent.inflectionFilter points =
      (points.enum).filterMap fun jp =>
        if ChartComponent.flagCond points jp.1 jp.2 then some jp.2 else none) ∧
    (ChartComponent.inflectionFilter exSeries).map Point.i = [1, 2, 3] ∧
    (ChartComponent.getExtremePoints exSeries).map Point.i = [1] := by
  refine ⟨?_, ?_, ?_, fun _ => rfl, by decide, by decide⟩
  · intro pre pm p pp post
    unfold ChartComponent.flagCond
    have h0 : jsIdx (pre ++ pm :: p :: pp :: post) (((pre.length + 1 : Nat) : Int) - 1) =
        some pm := by
      rw [show (((pre.length + 1 : Nat) : Int) - 1) = ((pre.length : Nat) : Int) by
        push_cast; ring]
      rw [jsIdx_natCast, List.getElem?_append_right (le_refl _)]
      simp
    have h2 : jsIdx (pre ++ pm :: p :: pp :: post) (((pre.length + 1 : Nat) : Int) + 1) =
        some pp := by
      rw [show (((pre.length + 1 : Nat) : Int) + 1) = ((pre.length + 2 : Nat) : Int) by
        push_cast; ring]
      rw [jsIdx_natCast, List.getElem?_append_right (by omega)]
      simp [show pre.length + 2 - pre.length = 2 by omega]
    rw [h0, h2]
    simp [ChartComponent.jsLtValue, ChartComponent.jsGtValue]
  · intro points p
    unfold ChartComponent.flagCond
    have h : jsIdx points (((0 : Nat) : Int) - 1) = none := by
      unfold jsIdx
      rw [if_pos (by omega)]
    rw [h]
    simp [ChartComponent.jsLtValue, ChartComponent.jsGtValue]
  · intro points j p hj
    unfold ChartComponent.flagCond
    have h : jsIdx points (((j : Nat) : Int) + 1) = none := by
      rw [show (((j : Nat) : Int) + 1) = ((j + 1 : Nat) : Int) by push_cast; ring]
      rw [jsIdx_natCast, List.getElem?_eq_none hj]
    rw [h]
    simp [ChartComponent.jsLtValue, ChartComponent.jsGtValue]

/-- Claim C3 witness: index 2 of the example (value 2, neighbors 3 and 5)
satisfies the amended flagging rule. -/
theorem claim3_witness :
    ChartComponent.flagCond
      ([⟨0, 1, 0⟩] ++ ⟨1, 3, 1⟩ :: ⟨2, 2, 2⟩ :: ⟨3, 5, 3⟩ :: [⟨4, 1, 4⟩])
      ([(⟨0, 1, 0⟩ : Point)].length + 1) ⟨2, 2, 2⟩ = true :=
  (claim3_amended.1 [⟨0, 1, 0⟩] ⟨1, 3, 1⟩ ⟨2, 2, 2⟩ ⟨3, 5, 3⟩ [⟨4, 1, 4⟩]).mpr
    (Or.inl ⟨by decide, by decide⟩)

/-- Claim C8: whenever flagged points have consecutive indices, only the
first point of any such run survives the second filter; `collapseAdjacent`
coincides with the walk `keepRunFirsts` that keeps the head and drops every
element whose predecessor in the flagged list has index exactly one less,
and `getExtremePoints` is the inflection filter followed by that collapse. -/
theorem claim8 :
    (∀ ps, ChartComponent.collapseAdjacent ps = ChartComponent.keepRunFirsts ps) ∧
    (∀ points, ChartComponent.getExtremePoints points =
      ChartComponent.keepRunFirsts (ChartComponent.inflectionFilter points)) := by
  have hmain : ∀ ps, ChartComponent.collapseAdjacent ps = ChartComponent.keepRunFirsts ps := by
    intro ps
    match ps with
    | [] => rfl
    | p :: rest =>
      unfold ChartComponent.collapseAdjacent
      show List.filterMap _ ((0, p) :: List.enumFrom 1 rest) = _
      rw [List.filterMap_cons]
      rw [if_pos (by simp [jsIdx])]
      rw [ChartComponent.collapseAdjacent_go (p :: rest) rest 0 p rfl]
      rfl
  exact ⟨hmain, fun points => hmain (ChartComponent.inflectionFilter points)⟩

/-- Label placement directives returned by `getPointLabelPositioning`:
pixel offset plus optional SVG text anchor and alignment baseline (absent
fields in the JS object are `none`). -/
structure LabelPositioning where
  dx : ℚ
  dy : ℚ
  textAnchor : Option String
  alignmentBaseline : Option String
deriving DecidableEq, Repr

/-- `getPointLabelPositioning` from the source, with the offset constant `D`
as a parameter: part_000 uses `D = 10`, `[coordinates].tsx` inlines `D = 6`.
For a non-boundary sample the JS code reads `ps[i-1].value` and
`ps[i+1].value` without guards; an out-of-range access (a corrupt `i`
field) would throw, modelled here by `none`. -/
def getPointLabelPositioning (D : ℚ) (point : Point) (ps : List Point) :
    Option LabelPositioning :=
  if point.i = 0 ∨ point.i = ps.length - 1 then
    some ⟨0, 0, none, none⟩
  else
    match jsIdx ps ((point.i : Int) - 1), jsIdx ps ((point.i : Int) + 1) with
    | some q0, some q1 =>
      if q0.value < point.value ∧ q1.value < point.value then
        some ⟨0, -D, some "middle", none⟩
      else if point.value < q0.value ∧ point.value < q1.value then
        some ⟨0, D, some "middle", some "hanging"⟩
      else if q0.value < point.value ∧ point.value < q1.value then
        some ⟨-D, -D, some "end", some "middle"⟩
      else if point.value < q0.value ∧ q1.value < point.value then
        some ⟨D, -D, some "start", some "middle"⟩
      else
        some ⟨0, 0, none, none⟩
    | _, _ => none

lemma getPointLabelPositioning_eq (D : ℚ) (point : Point) (ps : List Point)
    (q0 q1 : Point)
    (hne : ¬ (point.i = 0 ∨ point.i = ps.length - 1))
    (e0 : jsIdx ps ((point.i : Int) - 1) = some q0)
    (e1 : jsIdx ps ((point.i : Int) + 1) = some q1) :
    getPointLabelPositioning D point ps =
      (if q0.value < point.value ∧ q1.value < point.value then
        some ⟨0, -D, some "middle", none⟩
      else if point.value < q0.value ∧ point.value < q1.value then
        some ⟨0, D, some "middle", some "hanging"⟩
      else if q0.value < point.value ∧ point.value < q1.value then
        some ⟨-D, -D, some "end", some "middle"⟩
      else if point.value < q0.value ∧ q1.value < point.value then
        some ⟨D, -D, some "start", some "middle"⟩
      else
        some ⟨0, 0, none, none⟩) := by
  unfold getPointLabelPositioning
  rw [if_neg hne, e0, e1]

/-- Claim C5: for a non-boundary sample whose neighbors are both strictly
lower, the resolver returns anchor "middle" with `dy = -D` (label above);
with both strictly higher, anchor "middle", baseline "hanging", `dy = +D`
(label below); for the first or last sample of the series, or when the
value ties a neighbor's, offset `(0, 0)` with default anchor and baseline. -/
theorem claim5 (D : ℚ) :
    (∀ (point : Point) (ps : List Point),
      (point.i = 0 ∨ point.i = ps.length - 1) →
      getPointLabelPositioning D point ps = some ⟨0, 0, none, none⟩) ∧
    (∀ (point q0 q1 : Point) (ps : List Point) (j : Nat),
      point.i = j + 1 → ps[j]? = some q0 → ps[j + 2]? = some q1 →
      ((q0.value < point.value ∧ q1.value < point.value →
        getPointLabelPositioning D point ps = some ⟨0, -D, some "middle", none⟩) ∧
       (point.value < q0.value ∧ point.value < q1.value →
        getPointLabelPositioning D point ps =
          some ⟨0, D, some "middle", some "hanging"⟩) ∧
       ((q0.value = point.value ∨ q1.value = point.value) →
        getPointLabelPositioning D point ps = some ⟨0, 0, none, none⟩))) := by
  constructor
  · intro point ps h
    unfold getPointLabelPositioning
    rw [if_pos h]
  · intro point q0 q1 ps j hij h0 h2
    have hlen : j + 2 < ps.length := by
      obtain ⟨h, _⟩ := List.getElem?_eq_some_iff.mp h2
      exact h
    have hne : ¬ (point.i = 0 ∨ point.i = ps.length - 1) := by omega
    have e0 : jsIdx ps ((point.i : Int) - 1) = some q0 := by
      rw [hij, show ((j + 1 : Nat) : Int) - 1 = ((j : Nat) : Int) by push_cast; ring,
        jsIdx_natCast, h0]
    have e1 : jsIdx ps ((point.i : Int) + 1) = some q1 := by
      rw [hij, show ((j + 1 : Nat) : Int) + 1 = ((j + 2 : Nat) : Int) by push_cast; ring,
        jsIdx_natCast, h2]
    rw [getPointLabelPositioning_eq D point ps q0 q1 hne e0 e1]
    refine ⟨?_, ?_, ?_⟩
    · intro h
      rw [if_pos h]
    · intro h
      rw [if_neg (by rintro ⟨h', _⟩; exact absurd (lt_trans h.1 h') (lt_irrefl _)),
        if_pos h]
    · rintro (he | he)
      · rw [if_neg (by rintro ⟨h', _⟩; rw [he] at h'; exact absurd h' (lt_irrefl _)),
          if_neg (by rintro ⟨h', _⟩; rw [he] at h'; exact absurd h' (lt_irrefl _)),
          if_neg (by rintro ⟨h', _⟩; rw [he] at h'; exact absurd h' (lt_irrefl _)),
          if_neg (by rintro ⟨h', _⟩; rw [he] at h'; exact absurd h' (lt_irrefl _))]
      · rw [if_neg (by rintro ⟨_, h'⟩; rw [he] at h'; exact absurd h' (lt_irrefl _)),
          if_neg (by rintro ⟨_, h'⟩; rw [he] at h'; exact absurd h' (lt_irrefl _)),
          if_neg (by rintro ⟨_, h'⟩; rw [he] at h'; exact absurd h' (lt_irrefl _)),
          if_neg (by rintro ⟨_, h'⟩; rw [he] at h'; exact absurd h' (lt_irrefl _))]

/-- Claim C5 witness: the three placements and the boundary case at
concrete samples, with `D = 10` (the part_000 constant). -/
theorem claim5_witness :
    getPointLabelPositioning 10 ⟨1, 3, 1⟩ [⟨0, 1, 0⟩, ⟨1, 3, 1⟩, ⟨2, 1, 2⟩] =
      some ⟨0, -10, some "middle", none⟩ ∧
    getPointLabelPositioning 10 ⟨1, 1, 1⟩ [⟨0, 3, 0⟩, ⟨1, 1, 1⟩, ⟨2, 3, 2⟩] =
      some ⟨0, 10, some "middle", some "hanging"⟩ ∧
    getPointLabelPositioning 10 ⟨1, 2, 1⟩ [⟨0, 2, 0⟩, ⟨1, 2, 1⟩, ⟨2, 3, 2⟩] =
      some ⟨0, 0, none, none⟩ ∧
    getPointLabelPositioning 10 ⟨0, 1, 0⟩ [⟨0, 1, 0⟩, ⟨1, 3, 1⟩, ⟨2, 1, 2⟩] =
      some ⟨0, 0, none, none⟩ := by
  refine ⟨?_, ?_, ?_, ?_⟩
  · exact ((claim5 10).2 ⟨1, 3, 1⟩ ⟨0, 1, 0⟩ ⟨2, 1, 2⟩ _ 0 rfl (by simp) (by simp)).1
      (by decide)
  · exact (((claim5 10).2 ⟨1, 1, 1⟩ ⟨0, 3, 0⟩ ⟨2, 3, 2⟩ _ 0 rfl (by simp) (by simp)).2).1
      (by decide)
  · exact (((claim5 10).2 ⟨1, 2, 1⟩ ⟨0, 2, 0⟩ ⟨2, 3, 2⟩ _ 0 rfl (by simp) (by simp)).2).2
      (Or.inl rfl)
  · exact (claim5 10).1 ⟨0, 1, 0⟩ _ (Or.inl rfl)

/-- Example bucket contents from the spec's bucket min/max property: samples
with values `[5, 1, 9, 3]`. -/
def claim4pts : List Point := [⟨0, 5, 0⟩, ⟨1, 1, 1⟩, ⟨2, 9, 2⟩, ⟨3, 3, 3⟩]

/-- Claim C2: the code has no empty-bucket guard.  `minIndex`/`maxIndex`
return `-1` on an empty bucket and `pointsInBoundary[-1]` is `undefined`, so
an empty bucket contributes two `undefined` entries to the detector's output
(instead of contributing nothing), which crash downstream rendering when
destructured. -/
theorem claim2_eval (s e : Int) (points : List Point) (bounds : List (Int × Int))
    (h : points.filter (CoordinatesPage.inBucket s e) = []) :
    CoordinatesPage.bucketExtremes s e points = [none, none] ∧
    CoordinatesPage.getExtremePoints ((s, e) :: bounds) points =
      none :: none :: CoordinatesPage.getExtremePoints bounds points := by
  have h1 : CoordinatesPage.bucketExtremes s e points = [none, none] := by
    unfold CoordinatesPage.bucketExtremes
    rw [h]
    rfl
  refine ⟨h1, ?_⟩
  unfold CoordinatesPage.getExtremePoints
  rw [List.map_cons, List.flatten_cons, h1]
  rfl

/-- Claim C2 witness: an empty bucket on an empty point list. -/
theorem claim2_witness :
    CoordinatesPage.bucketExtremes 0 86400000 [] = [none, none] :=
  (claim2_eval 0 86400000 [] [] rfl).1

/-- Claim C4: the detector processes buckets in bucket order (its output is
the concatenation of the per-bucket pairs), every nonempty bucket emits a
sample of minimum value first and a sample of maximum value second, and for
a single bucket holding values `[5, 1, 9, 3]` the output is the sample with
value 1 followed by the sample with value 9. -/
theorem claim4 (bounds : List (Int × Int)) (points : List Point) (s e : Int)
    (h : points.filter (CoordinatesPage.inBucket s e) ≠ []) :
    CoordinatesPage.getExtremePoints bounds points =
      (bounds.map (fun b => CoordinatesPage.bucketExtremes b.1 b.2 points)).flatten ∧
    (∃ m M, CoordinatesPage.bucketExtremes s e points = [some m, some M] ∧
      m ∈ points.filter (CoordinatesPage.inBucket s e) ∧
      (∀ q ∈ points.filter (CoordinatesPage.inBucket s e), m.value ≤ q.value) ∧
      M ∈ points.filter (CoordinatesPage.inBucket s e) ∧
      (∀ q ∈ points.filter (CoordinatesPage.inBucket s e), q.value ≤ M.value)) ∧
    CoordinatesPage.getExtremePoints [(0, 10)] claim4pts =
      [some ⟨1, 1, 1⟩, some ⟨2, 9, 2⟩] := by
  refine ⟨rfl, CoordinatesPage.bucketExtremes_spec s e points h, by decide⟩

/-- Claim C4 witness: the single-bucket example instantiated. -/
theorem claim4_witness :
    ∃ m M, CoordinatesPage.bucketExtremes 0 10 claim4pts = [some m, some M] ∧
      m ∈ claim4pts.filter (CoordinatesPage.inBucket 0 10) ∧
      (∀ q ∈ claim4pts.filter (CoordinatesPage.inBucket 0 10), m.value ≤ q.value) ∧
      M ∈ claim4pts.filter (CoordinatesPage.inBucket 0 10) ∧
      (∀ q ∈ claim4pts.filter (CoordinatesPage.inBucket 0 10), q.value ≤ M.value) :=
  (claim4 [] claim4pts 0 10 (by decide)).2.1

/-- Claim C10: a bucket whose filtered contents are a single sample emits
that same sample twice (as both the bucket minimum and the bucket maximum),
so the output can contain duplicate points for single-sample days. -/
theorem claim10 (s e : Int) (points : List Point) (p : Point)
    (h : points.filter (CoordinatesPage.inBucket s e) = [p]) :
    CoordinatesPage.bucketExtremes s e points = [some p, some p] ∧
    CoordinatesPage.getExtremePoints [(s, e)] points = [some p, some p] := by
  have h1 : CoordinatesPage.bucketExtremes s e points = [some p, some p] := by
    unfold CoordinatesPage.bucketExtremes
    rw [h]
    rfl
  refine ⟨h1, ?_⟩
  unfold CoordinatesPage.getExtremePoints
  rw [List.map_cons, List.map_nil, List.flatten_cons, h1]
  rfl

/-- Claim C10 witness: one sample, one bucket, emitted twice. -/
theorem claim10_witness :
    CoordinatesPage.getExtremePoints [(0, 10)] [⟨5, 7, 0⟩] =
      [some ⟨5, 7, 0⟩, some ⟨5, 7, 0⟩] :=
  (claim10 0 10 [⟨5, 7, 0⟩] ⟨5, 7, 0⟩ (by decide)).2

/-- d3's `extent` scan: `[min, max]` of the array (the running bounds are
replaced on strict comparison, as in d3's loop), `[undefined, undefined]`
(modelled as `none`) on an empty array. -/
def d3extent {α : Type} [LinearOrder α] (l : List α) : Option (α × α) :=
  l.foldl (fun acc x =>
    match acc with
    | none => some (x, x)
    | some ab => some (if x < ab.1 then x else ab.1, if ab.2 < x then x else ab.2)) none

/-- Rendered per-series scene content relevant to the claims: the path
geometry input (all samples of the series, as handed to `TsPath`) and the
samples whose `PointLabel` survives the edge-suppression test. -/
structure SceneSeries where
  pathPoints : List Point
  labelPoints : List Point
deriving DecidableEq, Repr

namespace ChartComponent

/-- The width floor substitution `width = width < 1000 ? 1200 : width`. -/
def adjustWidth (w : ℚ) : ℚ :=
  if w < 1000 then 1200 else w

/-- d3 `scaleLinear`/`scaleTime`: map `x` from domain `[d0, d1]` to range
`[r0, r1]` by linear interpolation; a degenerate domain collapses to the
midpoint of the range (d3's `normalize` returns the constant 1/2 when
`d1 - d0` is zero). -/
def d3LinearScale (d0 d1 r0 r1 x : ℚ) : ℚ :=
  if d1 = d0 then (r0 + r1) / 2 else r0 + (x - d0) / (d1 - d0) * (r1 - r0)

/-- JavaScript's `Math.abs`. -/
def jsAbs (a : ℚ) : ℚ :=
  if a < 0 then -a else a

/-- `PointLabel`'s suppression test: the label is hidden when the scaled
position is within `MIN_SPACE_FOR_INNER_LABELS = 30` px of any outer
viewport edge (left, top, right, bottom). -/
def labelSuppressed (x y width height : ℚ) : Bool :=
  decide (x < 30) || decide (y < 30) ||
  decide (jsAbs (width - x) < 30) || decide (jsAbs (height - y) < 30)

/-- The part_000 `Chart` scene, restricted to what the claims concern.  The
x scale has domain `extent` of all series' times and range `[0, innerWidth]`
with `innerWidth = width` (outer left/right spacing 0, inner left/right
spacing 0); the y scale has domain `extent` of all values and range
`[innerHeight - 30, 30]` with `innerHeight = height - 18` (outer bottom 18,
inner top/bottom 30).  Each series' `TsPath` receives the full `ts.points`;
a `PointLabel` is rendered for each extreme point, and returns nothing when
suppressed.  `none` models the undefined domains of empty input. -/
def chartScene (tss : List TimeSeries) (width height : ℚ) :
    Option (List SceneSeries) :=
  let w := adjustWidth width
  let allPoints := (tss.map TimeSeries.points).flatten
  match d3extent (allPoints.map Point.time), d3extent (allPoints.map Point.value) with
  | some xd, some yd =>
    some (tss.map fun ts =>
      { pathPoints := ts.points
        labelPoints := (getExtremePoints ts.points).filter fun p =>
          !labelSuppressed (d3LinearScale (xd.1 : ℚ) (xd.2 : ℚ) 0 w (p.time : ℚ))
            (d3LinearScale yd.1 yd.2 (height - 18 - 30) 30 p.value) w height })
  | _, _ => none

/-- The x-domain computation in `Chart`: `extent(allTimes, d => d.time)`,
`undefined` entries (`none`) on empty input. -/
def chartXDomain (tss : List TimeSeries) : Option (Int × Int) :=
  d3extent (((tss.map TimeSeries.points).flatten).map Point.time)

/-- Modelled from the spec and the Temporal API, for the part of the call
chain outside the repository: `Chart` casts the extent to `[number,
number]` unchecked and calls `getDayBoundaries` on it; on empty input the
extent entries are `undefined`, and
`Temporal.Instant.fromEpochMilliseconds(undefined)` coerces `undefined` to
`NaN` and throws a `RangeError`, modelled as `Except.error`. -/
def chartDayBoundaries (cal : Calendar) (tss : List TimeSeries) :
    Except String (List (Int × Int)) :=
  match chartXDomain tss with
  | some d => Except.ok (getDayBoundaries cal d.1 d.2)
  | none => Except.error "RangeError"

end ChartComponent

/-- Claim C6: the chart renders a scene in which, for each series, a point
label survives exactly when the point is extreme and its scaled pixel
position passes the 30 px outer-edge margin test (`labelSuppressed` is
false, computed against the adjusted outer width and the outer height), and
a suppressed point's sample still contributes to the series' path geometry
unchanged (every path receives the full `ts.points`). -/
theorem claim6 (tss : List TimeSeries) (w h : ℚ) (x0 x1 : Int) (y0 y1 : ℚ)
    (hx : d3extent (((tss.map TimeSeries.points).flatten).map Point.time) =
      some (x0, x1))
    (hy : d3extent (((tss.map TimeSeries.points).flatten).map Point.value) =
      some (y0, y1)) :
    ∃ scene, ChartComponent.chartScene tss w h = some scene ∧
      scene.map SceneSeries.pathPoints = tss.map TimeSeries.points ∧
      (∀ (k : Nat) (hk : k < tss.length) (hk2 : k < scene.length) (p : Point),
        p ∈ (scene.get ⟨k, hk2⟩).labelPoints ↔
          (p ∈ ChartComponent.getExtremePoints (tss.get ⟨k, hk⟩).points ∧
           ChartComponent.labelSuppressed
             (ChartComponent.d3LinearScale (x0 : ℚ) (x1 : ℚ) 0
               (ChartComponent.adjustWidth w) (p.time : ℚ))
             (ChartComponent.d3LinearScale y0 y1 (h - 18 - 30) 30 p.value)
             (ChartComponent.adjustWidth w) h = false)) := by
  refine ⟨tss.map fun ts =>
    ⟨ts.points,
     (ChartComponent.getExtremePoints ts.points).filter fun p =>
       !ChartComponent.labelSuppressed
         (ChartComponent.d3LinearScale (x0 : ℚ) (x1 : ℚ) 0
           (ChartComponent.adjustWidth w) (p.time : ℚ))
         (ChartComponent.d3LinearScale y0 y1 (h - 18 - 30) 30 p.value)
         (ChartComponent.adjustWidth w) h⟩, ?_, ?_, ?_⟩
  · simp only [ChartComponent.chartScene]
    rw [hx, hy]
  · rw [List.map_map]
    rfl
  · intro k hk hk2 p
    simp only [List.get_eq_getElem, List.getElem_map]
    rw [List.mem_filter]
    constructor
    · rintro ⟨hmem, hb⟩
      exact ⟨hmem, by simpa using hb⟩
    · rintro ⟨hmem, hb⟩
      exact ⟨hmem, by simpa using hb⟩

/-- Times `[0, 1, 2, 3, 4, 100]` with values `[1, 5, 2, 2, 4, 1]`: the
extremes are at indices 1 and 4; index 1 scales to x = 12 px (within the
30 px margin, suppressed), index 4 to (48, 60.5) px (visible). -/
def claim6pts : List Point :=
  [⟨0, 1, 0⟩, ⟨1, 5, 1⟩, ⟨2, 2, 2⟩, ⟨3, 2, 3⟩, ⟨4, 4, 4⟩, ⟨100, 1, 5⟩]

/-- Claim C6 witness: a concrete one-series scene on a 1200 × 200 viewport. -/
theorem claim6_witness :
    ∃ scene, ChartComponent.chartScene [⟨"Temperature", claim6pts⟩] 1200 200 =
        some scene ∧
      scene.map SceneSeries.pathPoints = [claim6pts] ∧
      (∀ (k : Nat) (hk : k < [(⟨"Temperature", claim6pts⟩ : TimeSeries)].length)
          (hk2 : k < scene.length) (p : Point),
        p ∈ (scene.get ⟨k, hk2⟩).labelPoints ↔
          (p ∈ ChartComponent.getExtremePoints
              ([(⟨"Temperature", claim6pts⟩ : TimeSeries)].get ⟨k, hk⟩).points ∧
           ChartComponent.labelSuppressed
             (ChartComponent.d3LinearScale ((0 : Int) : ℚ) ((100 : Int) : ℚ) 0
               (ChartComponent.adjustWidth 1200) (p.time : ℚ))
             (ChartComponent.d3LinearScale 1 5 (200 - 18 - 30) 30 p.value)
             (ChartComponent.adjustWidth 1200) 200 = false)) := by
  have h := claim6 [⟨"Temperature", claim6pts⟩] 1200 200 0 100 1 5
    (by decide) (by decide)
  simpa using h

/-- Claim C7: the code crashes on empty input instead of failing with a
`NoDataError` or producing a degenerate domain.  With no samples at all the
extent is `[undefined, undefined]` (the scale mapper's domain is undefined,
`none`), and the day segmenter throws: `getDayBoundaries` passes
`undefined` into `Temporal.Instant.fromEpochMilliseconds`, which throws a
`RangeError`. -/
theorem claim7_eval (cal : Calendar) (tss : List TimeSeries)
    (h : ∀ ts ∈ tss, ts.points = []) :
    ChartComponent.chartXDomain tss = none ∧
    ChartComponent.chartDayBoundaries cal tss = Except.error "RangeError" ∧
    ChartComponent.chartScene tss 1200 400 = none := by
  have hflat : (tss.map TimeSeries.points).flatten = [] := by
    rw [List.flatten_eq_nil_iff]
    intro l hl
    obtain ⟨ts, hts, rfl⟩ := List.mem_map.mp hl
    exact h ts hts
  have hx : ChartComponent.chartXDomain tss = none := by
    unfold ChartComponent.chartXDomain
    rw [hflat]
    rfl
  refine ⟨hx, ?_, ?_⟩
  · unfold ChartComponent.chartDayBoundaries
    rw [hx]
  · simp only [ChartComponent.chartScene]
    rw [hflat]
    rfl

/-- Claim C7 witness: the empty series list. -/
theorem claim7_witness :
    ChartComponent.chartXDomain [] = none ∧
    ChartComponent.chartDayBoundaries estCal [] = Except.error "RangeError" := by
  have h := claim7_eval estCal []
    (fun ts hts => absurd hts (List.not_mem_nil ts))
  exact ⟨h.1, h.2.1⟩

end Weather
